import Mathlib

/-!
Verification of the RanobeDB Calibre metadata source plugin.

The definitions below are a shallow embedding of the plugin's Python code
(`src/ranobedb_light_novels/__init__.py`).  Python dictionaries that hold
the three language slots are modelled as association lists that preserve
insertion order, Python `None` is modelled by `Option`, Python string
truthiness (`if value:`) is modelled by `opt_truthy`, and numeric ids are
`Nat` (rendered to strings the way Python's `str` does).
-/

namespace RanobeDB

/-- The three canonical language tags used by the plugin. -/
inductive Lang where
  | en
  | romaji
  | ja
deriving DecidableEq, Repr, Fintype

/-- Python truthiness of an optional string: `None` and `''` are falsy. -/
def opt_truthy (v : Option String) : Bool :=
  match v with
  | some s => !(s == "")
  | none => false

/-- Normalisation of one comma-separated token of the `language_order`
preference, mirroring the alias handling in `_parse_language_order`:
the token is stripped and lowercased, then `en`/`english` map to `en`,
`ja`/`japanese`/`jp` map to `ja`, `romaji` maps to `romaji`, and anything
else is dropped (`continue`). -/
def normalize_tag (tok : String) : Option Lang :=
  let lang := tok.trim.toLower
  if lang = "en" ∨ lang = "english" then some Lang.en
  else if lang = "ja" ∨ lang = "japanese" ∨ lang = "jp" then some Lang.ja
  else if lang = "romaji" then some Lang.romaji
  else none

/-- Appending a language to the accumulated order only when it is not
already present (`if lang not in order: order.append(lang)`). -/
def add_missing (acc : List Lang) (l : Lang) : List Lang :=
  if l ∈ acc then acc else acc ++ [l]

/-- The token loop of `_parse_language_order`. -/
def parse_order_loop : List String → List Lang → List Lang
  | [], acc => acc
  | t :: rest, acc =>
    match normalize_tag t with
    | none => parse_order_loop rest acc
    | some l => parse_order_loop rest (add_missing acc l)

/-- The fallback loop of `_parse_language_order`: `for lang in ['en',
'romaji', 'ja']: if lang not in order: order.append(lang)`. -/
def ensure_fallback (acc : List Lang) : List Lang :=
  add_missing (add_missing (add_missing acc Lang.en) Lang.romaji) Lang.ja

/-- Embedding of `_parse_language_order`. -/
def parse_language_order (prefs : String) : List Lang :=
  ensure_fallback (parse_order_loop (prefs.splitOn ",") [])

/-- Lookup in the options association list, mirroring `options.get(lang)`. -/
def get_opt (options : List (Lang × Option String)) (l : Lang) : Option String :=
  match options.find? (fun p => decide (p.1 = l)) with
  | some p => p.2
  | none => none

/-- The first loop of `_select_by_language`: return the first truthy value
following the preference order. -/
def first_by_order (options : List (Lang × Option String)) : List Lang → Option String
  | [] => none
  | l :: rest =>
    if opt_truthy (get_opt options l) then get_opt options l
    else first_by_order options rest

/-- The fallback loop of `_select_by_language`: any truthy value of the
options map, in insertion order. -/
def fallback_value : List (Lang × Option String) → Option String
  | [] => none
  | p :: rest => if opt_truthy p.2 then p.2 else fallback_value rest

/-- Embedding of `_select_by_language` (which parses the preference order
itself from the `language_order` preference string). -/
def select_by_language (prefs : String) (options : List (Lang × Option String)) :
    Option String :=
  match first_by_order options (parse_language_order prefs) with
  | some v => some v
  | none => fallback_value options

/-! Helper lemmas about the order parser. -/

theorem add_missing_nodup {acc : List Lang} {l : Lang} (h : acc.Nodup) :
    (add_missing acc l).Nodup := by
  unfold add_missing
  split
  · exact h
  · next hmem => simp [List.nodup_append, h, hmem]

theorem mem_add_missing_self (acc : List Lang) (l : Lang) : l ∈ add_missing acc l := by
  unfold add_missing
  split
  · assumption
  · simp

theorem mem_add_missing_of_mem {acc : List Lang} {x : Lang} (l : Lang) (h : x ∈ acc) :
    x ∈ add_missing acc l := by
  unfold add_missing
  split
  · exact h
  · simp [h]

theorem parse_order_loop_nodup :
    ∀ (toks : List String) (acc : List Lang), acc.Nodup → (parse_order_loop toks acc).Nodup := by
  intro toks
  induction toks with
  | nil => intro acc h; simpa [parse_order_loop] using h
  | cons t rest ih =>
    intro acc h
    simp only [parse_order_loop]
    cases normalize_tag t with
    | none => exact ih acc h
    | some l => exact ih _ (add_missing_nodup h)

theorem ensure_fallback_nodup {acc : List Lang} (h : acc.Nodup) :
    (ensure_fallback acc).Nodup :=
  add_missing_nodup (add_missing_nodup (add_missing_nodup h))

theorem mem_ensure_fallback (acc : List Lang) (l : Lang) : l ∈ ensure_fallback acc := by
  cases l with
  | en =>
    exact mem_add_missing_of_mem _ (mem_add_missing_of_mem _ (mem_add_missing_self _ _))
  | romaji =>
    exact mem_add_missing_of_mem _ (mem_add_missing_self _ _)
  | ja =>
    exact mem_add_missing_self _ _

theorem parse_language_order_nodup (prefs : String) :
    (parse_language_order prefs).Nodup :=
  ensure_fallback_nodup (parse_order_loop_nodup _ _ List.nodup_nil)

theorem parse_language_order_complete (prefs : String) (l : Lang) :
    l ∈ parse_language_order prefs :=
  mem_ensure_fallback _ l

theorem first_by_order_eq_find (options : List (Lang × Option String)) (ord : List Lang) :
    first_by_order options ord =
      match ord.find? (fun l => opt_truthy (get_opt options l)) with
      | some l => get_opt options l
      | none => none := by
  induction ord with
  | nil => rfl
  | cons l rest ih =>
    simp only [first_by_order]
    cases h : opt_truthy (get_opt options l) with
    | true => simp [List.find?_cons, h]
    | false => simp [List.find?_cons, h, ih]

theorem fallback_value_eq_find (options : List (Lang × Option String)) :
    fallback_value options =
      match options.find? (fun p => opt_truthy p.2) with
      | some p => p.2
      | none => none := by
  induction options with
  | nil => rfl
  | cons p rest ih =>
    simp only [fallback_value]
    cases h : opt_truthy p.2 with
    | true => simp [List.find?_cons, h]
    | false => simp [List.find?_cons, h, ih]

theorem opt_truthy_isSome {v : Option String} (h : opt_truthy v = true) : ∃ s, v = some s := by
  cases v with
  | none => simp [opt_truthy] at h
  | some s => exact ⟨s, rfl⟩

/-- C1: the parsed language preference order is always a duplicate-free
total order over the three canonical tags (even for empty or malformed
configuration strings), and `_select_by_language` returns the first
present non-empty value along that order, falling back to the first
present non-empty value of the options map in insertion order, and
otherwise returns absent. -/
theorem select_by_language_spec (prefs : String) (options : List (Lang × Option String)) :
    (parse_language_order prefs).Nodup ∧
    (∀ l : Lang, l ∈ parse_language_order prefs) ∧
    (parse_language_order prefs).length = 3 ∧
    select_by_language prefs options =
      (match (parse_language_order prefs).find? (fun l => opt_truthy (get_opt options l)) with
       | some l => get_opt options l
       | none =>
         match options.find? (fun p => opt_truthy p.2) with
         | some p => p.2
         | none => none) := by
  refine ⟨parse_language_order_nodup prefs, parse_language_order_complete prefs, ?_, ?_⟩
  · have hsub : [Lang.en, Lang.romaji, Lang.ja] ⊆ parse_language_order prefs := by
      intro l _
      exact parse_language_order_complete prefs l
    have h1 : (parse_language_order prefs).length ≤ 3 := by
      have hcard : Fintype.card Lang = 3 := by decide
      have := List.Nodup.length_le_card (parse_language_order_nodup prefs)
      omega
    have h2 : 3 ≤ (parse_language_order prefs).length := by
      have hn : ([Lang.en, Lang.romaji, Lang.ja] : List Lang).Nodup := by decide
      have hsp : List.Subperm [Lang.en, Lang.romaji, Lang.ja] (parse_language_order prefs) :=
        List.Nodup.subperm hn hsub
      simpa using hsp.length_le
    omega
  · unfold select_by_language
    rw [first_by_order_eq_find, fallback_value_eq_find]
    cases hf : (parse_language_order prefs).find? (fun l => opt_truthy (get_opt options l)) with
    | none => simp
    | some l =>
      have hp : opt_truthy (get_opt options l) = true := by
        have := List.find?_some hf
        simpa using this
      obtain ⟨s, hs⟩ := opt_truthy_isSome hp
      simp [hs]

/-! Data model: the raw record shape consumed by the field extractors,
with every dictionary access modelled as an optional field. -/

/-- One staff entry of an edition (`edition['staff']` items). -/
structure Staff where
  role_type : Option String
  name : Option String
  romaji : Option String
deriving DecidableEq

/-- One edition of a book. -/
structure Edition where
  staff : List Staff
deriving DecidableEq

/-- One alternate-title entry. -/
structure TitleEntry where
  lang : Option String
  title : Option String
deriving DecidableEq

/-- One member entry of a series' `books` list. -/
structure SeriesBook where
  id : Option Nat
  sort_order : Option Int
deriving DecidableEq

/-- The embedded series object of a raw record. -/
structure SeriesData where
  title : Option String
  olang : Option String
  romaji : Option String
  titles : List TitleEntry
  books : List SeriesBook
deriving DecidableEq

/-- The raw book record (the fields used by the claims under study). -/
structure Book where
  id : Option Nat
  editions : List Edition
  series : Option SeriesData
  c_release_date : Option Int
deriving DecidableEq

/-! Author extraction (`_extract_authors`). -/

/-- The options map built per staff entry in `_extract_authors`: the
romanised name fills both the `en` and `romaji` slots, the original name
fills `ja`. -/
def staff_options (st : Staff) : List (Lang × Option String) :=
  [(Lang.en, st.romaji), (Lang.romaji, st.romaji), (Lang.ja, st.name)]

/-- The inner staff loop of `_extract_authors`. -/
def extract_authors_staff (prefs : String) : List Staff → List String → List String
  | [], acc => acc
  | st :: rest, acc =>
    if st.role_type = some "author" then
      match select_by_language prefs (staff_options st) with
      | some nm =>
        if nm ≠ "" ∧ nm ∉ acc then extract_authors_staff prefs rest (acc ++ [nm])
        else extract_authors_staff prefs rest acc
      | none => extract_authors_staff prefs rest acc
    else extract_authors_staff prefs rest acc

/-- The outer edition loop of `_extract_authors`. -/
def extract_authors_editions (prefs : String) : List Edition → List String → List String
  | [], acc => acc
  | ed :: rest, acc => extract_authors_editions prefs rest (extract_authors_staff prefs ed.staff acc)

/-- Embedding of `_extract_authors`: nested loops plus the
`authors if authors else [_('Unknown')]` fallback. -/
def extract_authors (prefs : String) (bd : Book) : List String :=
  let authors := extract_authors_editions prefs bd.editions []
  if authors = [] then ["Unknown"] else authors

/-- Spec-side helper: all staff entries of all editions, in order. -/
def all_staff : List Edition → List Staff
  | [] => []
  | ed :: rest => ed.staff ++ all_staff rest

/-- Language resolution of one staff entry's display name. -/
def resolve_staff_name (prefs : String) (st : Staff) : Option String :=
  select_by_language prefs (staff_options st)

/-- Spec-side deduplication keeping the first occurrence (loop form). -/
def dedup_first_loop : List String → List String → List String
  | [], acc => acc
  | x :: rest, acc =>
    if x ∈ acc then dedup_first_loop rest acc else dedup_first_loop rest (acc ++ [x])

/-- Spec-side deduplication keeping the first occurrence. -/
def dedup_first (l : List String) : List String := dedup_first_loop l []

theorem first_by_order_ne_empty {options : List (Lang × Option String)} :
    ∀ {ord : List Lang} {v : String}, first_by_order options ord = some v → v ≠ "" := by
  intro ord
  induction ord with
  | nil => intro v h; simp [first_by_order] at h
  | cons l rest ih =>
    intro v h
    simp only [first_by_order] at h
    by_cases ht : opt_truthy (get_opt options l) = true
    · rw [if_pos ht] at h
      cases hg : get_opt options l with
      | none => rw [hg] at ht; simp [opt_truthy] at ht
      | some s =>
        rw [hg] at ht h
        cases h
        simpa [opt_truthy] using ht
    · rw [if_neg ht] at h
      exact ih h

theorem fallback_value_ne_empty :
    ∀ {options : List (Lang × Option String)} {v : String},
      fallback_value options = some v → v ≠ "" := by
  intro options
  induction options with
  | nil => intro v h; simp [fallback_value] at h
  | cons p rest ih =>
    intro v h
    simp only [fallback_value] at h
    by_cases ht : opt_truthy p.2 = true
    · rw [if_pos ht] at h
      cases hg : p.2 with
      | none => rw [hg] at ht; simp [opt_truthy] at ht
      | some s =>
        rw [hg] at ht h
        cases h
        simpa [opt_truthy] using ht
    · rw [if_neg ht] at h
      exact ih h

theorem select_by_language_ne_empty {prefs : String} {options : List (Lang × Option String)}
    {v : String} (h : select_by_language prefs options = some v) : v ≠ "" := by
  unfold select_by_language at h
  cases hf : first_by_order options (parse_language_order prefs) with
  | none => rw [hf] at h; exact fallback_value_ne_empty h
  | some w => rw [hf] at h; cases h; exact first_by_order_ne_empty hf

theorem extract_authors_staff_eq (prefs : String) :
    ∀ (sts : List Staff) (acc : List String),
      extract_authors_staff prefs sts acc =
        dedup_first_loop
          ((sts.filter (fun st => decide (st.role_type = some "author"))).filterMap
            (resolve_staff_name prefs)) acc := by
  intro sts
  induction sts with
  | nil => intro acc; rfl
  | cons st rest ih =>
    intro acc
    by_cases hrole : st.role_type = some "author"
    · have hfil : (st :: rest).filter (fun st => decide (st.role_type = some "author")) =
          st :: rest.filter (fun st => decide (st.role_type = some "author")) := by
        rw [List.filter_cons, if_pos (by simpa using hrole)]
      rw [hfil]
      simp only [extract_authors_staff, if_pos hrole]
      cases hres : select_by_language prefs (staff_options st) with
      | none =>
        rw [List.filterMap_cons]
        simp only [resolve_staff_name, hres]
        exact ih acc
      | some nm =>
        have hne : nm ≠ "" := select_by_language_ne_empty hres
        rw [List.filterMap_cons]
        simp only [resolve_staff_name, hres]
        by_cases hmem : nm ∈ acc
        · rw [if_neg (by simp [hmem])]
          simp only [dedup_first_loop, if_pos hmem]
          exact ih acc
        · rw [if_pos (by exact ⟨hne, hmem⟩)]
          simp only [dedup_first_loop, if_neg hmem]
          exact ih (acc ++ [nm])
    · have hfil : (st :: rest).filter (fun st => decide (st.role_type = some "author")) =
          rest.filter (fun st => decide (st.role_type = some "author")) := by
        rw [List.filter_cons, if_neg (by simpa using hrole)]
      rw [hfil]
      simp only [extract_authors_staff, if_neg hrole]
      exact ih acc

theorem dedup_first_loop_append (l1 l2 : List String) :
    ∀ acc, dedup_first_loop (l1 ++ l2) acc = dedup_first_loop l2 (dedup_first_loop l1 acc) := by
  induction l1 with
  | nil => intro acc; rfl
  | cons x rest ih =>
    intro acc
    rw [List.cons_append]
    simp only [dedup_first_loop]
    by_cases hmem : x ∈ acc
    · rw [if_pos hmem, if_pos hmem, ih]
    · rw [if_neg hmem, if_neg hmem, ih]

theorem extract_authors_editions_eq (prefs : String) :
    ∀ (eds : List Edition) (acc : List String),
      extract_authors_editions prefs eds acc =
        dedup_first_loop
          (((all_staff eds).filter (fun st => decide (st.role_type = some "author"))).filterMap
            (resolve_staff_name prefs)) acc := by
  intro eds
  induction eds with
  | nil => intro acc; rfl
  | cons ed rest ih =>
    intro acc
    simp only [extract_authors_editions, all_staff, List.filter_append, List.filterMap_append,
      dedup_first_loop_append]
    rw [ih, extract_authors_staff_eq]

/-- C3: author extraction keeps exactly the staff entries whose role tag
equals `author`, resolves each through the language resolver, deduplicates
by resulting name keeping the first occurrence across all editions, falls
back to the single-element `Unknown` placeholder when nothing resolves,
and therefore never returns an empty list. -/
theorem extract_authors_spec (prefs : String) (bd : Book) :
    extract_authors prefs bd =
      (let names :=
        dedup_first
          (((all_staff bd.editions).filter (fun st => decide (st.role_type = some "author"))).filterMap
            (resolve_staff_name prefs))
       if names = [] then ["Unknown"] else names) ∧
    extract_authors prefs bd ≠ [] := by
  constructor
  · simp only [extract_authors, dedup_first, extract_authors_editions_eq]
  · simp only [extract_authors]
    split
    · simp
    · assumption

/-! Series helpers (`_get_series_name`, `_get_series_info`). -/

/-- The titles-array loop of `_get_series_name` (a later matching entry
overwrites an earlier one, mirroring repeated dict assignment). -/
def series_titles_loop : List TitleEntry → Option String × Option String → Option String × Option String
  | [], st => st
  | t :: rest, (en, ja) =>
    if t.lang = some "en" ∧ opt_truthy t.title then series_titles_loop rest (t.title, ja)
    else if t.lang = some "ja" ∧ opt_truthy t.title then series_titles_loop rest (en, t.title)
    else series_titles_loop rest (en, ja)

/-- The ASCII-looking heuristic: every character outside the small
punctuation allowlist is within the ASCII range. -/
def ascii_like (s : String) : Bool :=
  (s.data.filter (fun c => !([' ', ':', '-', '\''].contains c))).all (fun c => decide (c.toNat < 128))

/-- Embedding of `_get_series_name`. -/
def get_series_name (prefs : String) (sd : SeriesData) : Option String :=
  let st := series_titles_loop sd.titles (none, none)
  let main_title := sd.title
  let olang := sd.olang.getD "ja"
  let st2 :=
    if olang = "en" ∧ ¬ (opt_truthy st.1 = true) then (main_title, st.2)
    else if olang = "ja" ∧ ¬ (opt_truthy st.2 = true) then (st.1, main_title)
    else st
  let en3 :=
    if opt_truthy main_title = true ∧ ¬ (opt_truthy st2.1 = true) ∧ ascii_like (main_title.getD "") = true
    then main_title else st2.1
  match select_by_language prefs [(Lang.en, en3), (Lang.romaji, sd.romaji), (Lang.ja, st2.2)] with
  | some v => some v
  | none => main_title

/-- The member-scan loop of `_get_series_info` (1-based enumeration). -/
def series_index_loop (book_id : Option Nat) : List SeriesBook → Nat → Option Int
  | [], _ => none
  | b :: rest, idx =>
    if b.id = book_id then
      match b.sort_order with
      | some so => some so
      | none => some (idx : Int)
    else series_index_loop book_id rest (idx + 1)

/-- Embedding of `_get_series_info`. -/
def get_series_info (prefs : String) (bd : Book) : Option String × Option Int :=
  match bd.series with
  | none => (none, none)
  | some sd => (get_series_name prefs sd, series_index_loop bd.id sd.books 1)

theorem series_index_loop_found (rid : Option Nat) (b : SeriesBook) (hb : b.id = rid) :
    ∀ (pre post : List SeriesBook) (n : Nat), (∀ x ∈ pre, x.id ≠ rid) →
      series_index_loop rid (pre ++ b :: post) n =
        (match b.sort_order with
         | some so => some so
         | none => some ((n + pre.length : Nat) : Int)) := by
  intro pre
  induction pre with
  | nil =>
    intro post n _
    simp only [List.nil_append, series_index_loop, if_pos hb, List.length_nil, Nat.add_zero]
  | cons x xs ih =>
    intro post n hpre
    have hx : x.id ≠ rid := hpre x (by simp)
    rw [List.cons_append]
    simp only [series_index_loop, if_neg hx]
    rw [ih post (n + 1) (fun y hy => hpre y (by simp [hy]))]
    cases b.sort_order with
    | none =>
      simp only [List.length_cons]
      congr 1
      omega
    | some so => rfl

theorem series_index_loop_not_found (rid : Option Nat) :
    ∀ (books : List SeriesBook) (n : Nat), (∀ x ∈ books, x.id ≠ rid) →
      series_index_loop rid books n = none := by
  intro books
  induction books with
  | nil => intro n _; rfl
  | cons b rest ih =>
    intro n h
    have hb : b.id ≠ rid := h b (by simp)
    simp only [series_index_loop, if_neg hb]
    exact ih (n + 1) (fun y hy => h y (by simp [hy]))

/-- C4: when the record embeds a series, the series index comes from the
first member entry whose id equals the record's id — its explicit
sort-order number if present, otherwise its 1-based position — and is
absent when no member entry matches, even though the series name is still
produced by the name resolver. -/
theorem get_series_info_index_spec (prefs : String) (bd : Book) (sd : SeriesData)
    (hs : bd.series = some sd) :
    (get_series_info prefs bd).1 = get_series_name prefs sd ∧
    (∀ (pre : List SeriesBook) (b : SeriesBook) (post : List SeriesBook),
      sd.books = pre ++ b :: post → (∀ x ∈ pre, x.id ≠ bd.id) → b.id = bd.id →
      (get_series_info prefs bd).2 =
        some (match b.sort_order with
              | some so => so
              | none => ((pre.length + 1 : Nat) : Int))) ∧
    ((∀ x ∈ sd.books, x.id ≠ bd.id) → (get_series_info prefs bd).2 = none) := by
  refine ⟨?_, ?_, ?_⟩
  · simp [get_series_info, hs]
  · intro pre b post hbooks hpre hb
    simp only [get_series_info, hs, hbooks]
    rw [series_index_loop_found bd.id b hb pre post 1 hpre]
    cases b.sort_order with
    | none =>
      simp only []
      congr 1
      omega
    | some so => rfl
  · intro h
    simp only [get_series_info, hs]
    exact series_index_loop_not_found bd.id sd.books 1 h

/-- The spec's worked example for the series index: member list
`[{id:5, sort_order:3}, {id:9}]` with current id `9`. -/
def c4_example_book : Book :=
  { id := some 9
    editions := []
    series := some
      { title := none, olang := none, romaji := none, titles := []
        books := [{ id := some 5, sort_order := some 3 }, { id := some 9, sort_order := none }] }
    c_release_date := none }

/-- Witness for C4: the worked example evaluates to series index 2. -/
theorem get_series_info_index_spec_witness :
    (get_series_info "en" c4_example_book).2 = some 2 := by
  have h :=
    (get_series_info_index_spec "en" c4_example_book
        { title := none, olang := none, romaji := none, titles := []
          books := [{ id := some 5, sort_order := some 3 }, { id := some 9, sort_order := none }] }
        rfl).2.1
      [{ id := some 5, sort_order := some 3 }] { id := some 9, sort_order := none } []
      rfl (by decide) rfl
  simpa using h

/-- Record exhibiting a present but non-positive series index: the
matching member entry carries the explicit sort-order number 0, which the
code returns unchanged. -/
def c5_zero_book : Book :=
  { id := some 1
    editions := []
    series := some
      { title := none, olang := none, romaji := none, titles := []
        books := [{ id := some 1, sort_order := some 0 }] }
    c_release_date := none }

/-- C5 counterexample: normalization produces the present series index 0,
which is not positive, refuting the claim as stated. -/
theorem series_index_not_positive_counterexample :
    (get_series_info "en" c5_zero_book).2 = some 0 ∧ ¬ ((0 : Int) > 0) := by
  constructor
  · rfl
  · decide

theorem series_index_loop_cases (rid : Option Nat) :
    ∀ (books : List SeriesBook) (n : Nat) (i : Int), series_index_loop rid books n = some i →
      (∃ b ∈ books, b.sort_order = some i) ∨ (∃ m : Nat, n ≤ m ∧ i = (m : Int)) := by
  intro books
  induction books with
  | nil => intro n i h; simp [series_index_loop] at h
  | cons b rest ih =>
    intro n i h
    simp only [series_index_loop] at h
    by_cases hb : b.id = rid
    · rw [if_pos hb] at h
      cases hso : b.sort_order with
      | some so =>
        rw [hso] at h
        cases h
        exact Or.inl ⟨b, by simp, hso⟩
      | none =>
        rw [hso] at h
        cases h
        exact Or.inr ⟨n, Nat.le_refl n, rfl⟩
    · rw [if_neg hb] at h
      rcases ih (n + 1) i h with hl | ⟨m, hm, hi⟩
      · obtain ⟨x, hx, hxo⟩ := hl
        exact Or.inl ⟨x, by simp [hx], hxo⟩
      · exact Or.inr ⟨m, by omega, hi⟩

/-- C5 amended: a present series index is positive provided every explicit
sort-order number in the series' member list is positive (the 1-based
position used when sort-order is absent is always positive; the code
passes an explicit zero or negative sort-order number through unchanged). -/
theorem series_index_positive_amended (prefs : String) (bd : Book)
    (hpos : ∀ sd, bd.series = some sd → ∀ b ∈ sd.books, ∀ so : Int,
      b.sort_order = some so → 0 < so) :
    ∀ i : Int, (get_series_info prefs bd).2 = some i → 0 < i := by
  intro i hi
  cases hs : bd.series with
  | none => simp [get_series_info, hs] at hi
  | some sd =>
    simp only [get_series_info, hs] at hi
    rcases series_index_loop_cases bd.id sd.books 1 i hi with ⟨b, hb, hbo⟩ | ⟨m, hm, hieq⟩
    · exact hpos sd hs b hb i hbo
    · rw [hieq]
      exact_mod_cast hm

/-- Record whose matching member entry has no explicit sort-order. -/
def c5_witness_book : Book :=
  { id := some 9
    editions := []
    series := some
      { title := none, olang := none, romaji := none, titles := []
        books := [{ id := some 9, sort_order := none }] }
    c_release_date := none }

/-- Witness for the amended C5: the 1-based position index 1 is positive. -/
theorem series_index_positive_amended_witness : (0 : Int) < 1 := by
  refine series_index_positive_amended "en" c5_witness_book ?_ 1 rfl
  intro sd hsd b hb so hso
  injection hsd with h
  subst h
  simp only [List.mem_singleton] at hb
  subst hb
  simp at hso

/-! Publication-date parsing (`_parse_date`). -/

/-- Embedding of `_parse_date`.  The calibre collaborator
`calibre.utils.date.parse_date` applied to the rebuilt `YYYY-MM-DD` string
is modelled by the argument `mk` (which may fail); the exception handler
around it maps any failure to absent. -/
def parse_date {α : Type} (mk : String → String → String → Option α)
    (date_int : Option Int) : Option α :=
  match date_int with
  | none => none
  | some n =>
    if n ≤ 0 then none
    else
      let s := toString n
      if s.length = 8 then mk (s.take 4) ((s.drop 4).take 2) ((s.drop 6).take 2)
      else none

/-- C8: date parsing rejects an absent or non-positive input, splits the
decimal representation of an 8-digit positive input as 4/2/2 into
year/month/day handed to the calendar-date constructor, and returns
absent (never raising) for any input whose decimal representation is not
8 digits long. -/
theorem parse_date_spec {α : Type} (mk : String → String → String → Option α) :
    parse_date mk none = none ∧
    (∀ n : Int, n ≤ 0 → parse_date mk (some n) = none) ∧
    (∀ n : Int, 0 < n → (toString n).length ≠ 8 → parse_date mk (some n) = none) ∧
    (∀ n : Int, 0 < n → (toString n).length = 8 →
      parse_date mk (some n) =
        mk ((toString n).take 4) (((toString n).drop 4).take 2) (((toString n).drop 6).take 2)) := by
  refine ⟨rfl, ?_, ?_, ?_⟩
  · intro n h
    simp [parse_date, h]
  · intro n h1 h2
    simp [parse_date, h2, show ¬ n ≤ 0 by omega]
  · intro n h1 h2
    simp [parse_date, h2, show ¬ n ≤ 0 by omega]

/-- Witness for C8 at the spec's example inputs: 20240115 splits into
2024-01-15, while 0 and the 7-digit 1234567 yield absent. -/
theorem parse_date_spec_witness :
    parse_date (fun y m d => some (y, m, d)) (some 20240115) = some ("2024", "01", "15") ∧
    parse_date (fun y m d => some (y, m, d)) (some 0) = none ∧
    parse_date (fun y m d => some (y, m, d)) (some 1234567) = none := by
  refine ⟨?_, ?_, ?_⟩
  · have h := (parse_date_spec (fun y m d => some (y, m, d))).2.2.2 20240115
      (by decide) (by decide)
    rw [h]
    rfl
  · exact (parse_date_spec (fun y m d => some (y, m, d))).2.1 0 (by decide)
  · exact (parse_date_spec (fun y m d => some (y, m, d))).2.2.1 1234567 (by decide) (by decide)

/-! The API client (`_make_api_request`) and its two result interpreters. -/

/-- One search-result summary entry. -/
structure Candidate where
  id : Option Nat
deriving DecidableEq

/-- The parsed JSON body of an API response (only the fields the
orchestrator reads). -/
structure ApiResponse where
  books : Option (List Candidate) := none
  book : Option Book := none
deriving DecidableEq

/-- Embedding of `_make_api_request`: `transport = none` models a network
error or timeout of `browser.open_novisit`, and a `json_parse` result of
`none` models a `json.loads` failure; the surrounding exception handler
returns `None` in all of these cases. -/
def make_api_request (transport : Option String)
    (json_parse : String → Option ApiResponse) : Option ApiResponse :=
  match transport with
  | none => none
  | some raw => json_parse raw

/-- How `_search_books` interprets an API response. -/
def search_books_from (resp : Option ApiResponse) : List Candidate :=
  match resp with
  | some r =>
    match r.books with
    | some l => l
    | none => []
  | none => []

/-- How `_get_book_details` interprets an API response. -/
def get_book_details_from (resp : Option ApiResponse) : Option Book :=
  match resp with
  | some r => r.book
  | none => none

/-- C7: the API request returns the parsed JSON on success and absent on
transport error or JSON-parse failure (exceptions never cross the
component boundary), and the orchestrator's interpreters treat the absent
outcome exactly like a response carrying no data (empty search results,
detail miss). -/
theorem make_api_request_failure_spec (json_parse : String → Option ApiResponse) :
    make_api_request none json_parse = none ∧
    (∀ raw, json_parse raw = none → make_api_request (some raw) json_parse = none) ∧
    (∀ raw r, json_parse raw = some r → make_api_request (some raw) json_parse = some r) ∧
    (∀ resp : Option ApiResponse,
      resp = none ∨ (∃ r, resp = some r ∧ r.books = none) → search_books_from resp = []) ∧
    (∀ resp : Option ApiResponse,
      resp = none ∨ (∃ r, resp = some r ∧ r.book = none) → get_book_details_from resp = none) := by
  refine ⟨rfl, ?_, ?_, ?_, ?_⟩
  · intro raw h
    simp [make_api_request, h]
  · intro raw r h
    simp [make_api_request, h]
  · intro resp h
    rcases h with h | ⟨r, hr, hb⟩
    · simp [search_books_from, h]
    · simp [search_books_from, hr, hb]
  · intro resp h
    rcases h with h | ⟨r, hr, hb⟩
    · simp [get_book_details_from, h]
    · simp [get_book_details_from, hr, hb]

/-- Witness for C7: a transport failure and a parse failure both surface
as empty search results and a detail miss. -/
theorem make_api_request_failure_spec_witness :
    make_api_request (some "not json") (fun _ => none) = none ∧
    search_books_from (make_api_request none (fun _ => none)) = [] ∧
    get_book_details_from (make_api_request none (fun _ => none)) = none := by
  refine ⟨?_, ?_, ?_⟩
  · exact (make_api_request_failure_spec (fun _ => none)).2.1 "not json" rfl
  · exact (make_api_request_failure_spec (fun _ => none)).2.2.2.1
      (make_api_request none (fun _ => none)) (Or.inl rfl)
  · exact (make_api_request_failure_spec (fun _ => none)).2.2.2.2
      (make_api_request none (fun _ => none)) (Or.inl rfl)

/-! Book URL construction and parsing (`get_book_url`, `id_from_url`). -/

/-- The plugin's website base URL constant. -/
def website_url : String := "https://ranobedb.org"

/-- Lookup of one identifier key, mirroring `identifiers.get(key)` on an
insertion-ordered identifiers map. -/
def identifiers_get (identifiers : List (String × String)) (key : String) : Option String :=
  match identifiers.find? (fun p => decide (p.1 = key)) with
  | some p => some p.2
  | none => none

/-- Embedding of `get_book_url`. -/
def get_book_url (identifiers : List (String × String)) :
    Option (String × String × String) :=
  match identifiers_get identifiers "ranobedb" with
  | some rid =>
    if rid = "" then none
    else some ("ranobedb", rid, website_url ++ "/book/" ++ rid)
  | none => none

/-- The literal part of the regular expression `ranobedb\.org/book/(\d+)`
used by `id_from_url`. -/
def book_url_pat : List Char := "ranobedb.org/book/".data

/-- Leftmost regex search for `ranobedb\.org/book/(\d+)`: at each
position the pattern matches when the literal is a prefix and at least
one digit follows; the captured group is the maximal digit run (greedy
`\d+`). -/
def id_from_url_scan : List Char → Option String
  | [] => none
  | c :: rest =>
    let ds := ((c :: rest).drop book_url_pat.length).takeWhile Char.isDigit
    if book_url_pat.isPrefixOf (c :: rest) && !ds.isEmpty then some (String.mk ds)
    else id_from_url_scan rest

/-- Embedding of `id_from_url`. -/
def id_from_url (url : String) : Option (String × String) :=
  match id_from_url_scan url.data with
  | some ds => some ("ranobedb", ds)
  | none => none

theorem id_from_url_scan_skip_scheme (tl : List Char) :
    id_from_url_scan ('h' :: 't' :: 't' :: 'p' :: 's' :: ':' :: '/' :: '/' :: tl) =
      id_from_url_scan tl := rfl

theorem isPrefixOf_append_self (p l : List Char) : p.isPrefixOf (p ++ l) = true := by
  induction p with
  | nil => simp [List.isPrefixOf]
  | cons c cs ih => simp [List.isPrefixOf, ih]

theorem id_from_url_scan_hit (tl : List Char)
    (h : (tl.takeWhile Char.isDigit).isEmpty = false) :
    id_from_url_scan (book_url_pat ++ tl) = some (String.mk (tl.takeWhile Char.isDigit)) := by
  have e1 : book_url_pat ++ tl = 'r' :: ("anobedb.org/book/".data ++ tl) := rfl
  rw [e1]
  simp only [id_from_url_scan]
  rw [← e1, isPrefixOf_append_self, List.drop_left, h]
  simp

theorem id_from_url_round (d : String) (hne : d ≠ "")
    (hdig : ∀ c ∈ d.data, c.isDigit = true) :
    id_from_url (website_url ++ "/book/" ++ d) = some ("ranobedb", d) := by
  obtain ⟨data⟩ := d
  have hdne : data ≠ [] := by
    intro hnil
    exact hne (by rw [hnil])
  have hdata : (website_url ++ "/book/" ++ String.mk data).data =
      'h' :: 't' :: 't' :: 'p' :: 's' :: ':' :: '/' :: '/' :: (book_url_pat ++ data) := rfl
  have htw : data.takeWhile Char.isDigit = data :=
    List.takeWhile_eq_self_iff.mpr (by simpa using hdig)
  have hemp : (data.takeWhile Char.isDigit).isEmpty = false := by
    rw [htw]
    cases data with
    | nil => exact absurd rfl hdne
    | cons a l => rfl
  unfold id_from_url
  rw [hdata, id_from_url_scan_skip_scheme, id_from_url_scan_hit data hemp, htw]

/-- C10: for an identifiers map carrying a non-empty all-digit `ranobedb`
entry, `get_book_url` produces the triple with the website book URL and
`id_from_url` parses that URL back to the same identifier, while an
identifiers map with no `ranobedb` entry yields no book URL. -/
theorem get_book_url_round_trip (identifiers : List (String × String)) :
    (∀ d : String, identifiers_get identifiers "ranobedb" = some d → d ≠ "" →
      (∀ c ∈ d.data, c.isDigit = true) →
      get_book_url identifiers = some ("ranobedb", d, website_url ++ "/book/" ++ d) ∧
      id_from_url (website_url ++ "/book/" ++ d) = some ("ranobedb", d)) ∧
    (identifiers_get identifiers "ranobedb" = none → get_book_url identifiers = none) := by
  constructor
  · intro d hd hne hdig
    constructor
    · simp [get_book_url, hd, hne]
    · exact id_from_url_round d hne hdig
  · intro hd
    simp [get_book_url, hd]

/-- Witness for C10 at a concrete identifiers map. -/
theorem get_book_url_round_trip_witness :
    get_book_url [("ranobedb", "123")] =
      some ("ranobedb", "123", "https://ranobedb.org/book/123") ∧
    id_from_url "https://ranobedb.org/book/123" = some ("ranobedb", "123") ∧
    get_book_url [("isbn", "9781234567897")] = none := by
  have h := (get_book_url_round_trip [("ranobedb", "123")]).1 "123" rfl
    (by decide) (by decide)
  have h2 := (get_book_url_round_trip [("isbn", "9781234567897")]).2 rfl
  have hurl : website_url ++ "/book/" ++ "123" = "https://ranobedb.org/book/123" := rfl
  refine ⟨?_, ?_, h2⟩
  · rw [← hurl]
    exact h.1
  · rw [← hurl]
    exact h.2

/-! The identify orchestrator. -/

/-- Externally visible events of one `identify` invocation, in order:
abort-signal polls, detail requests, the search request, and results put
on the result queue. -/
inductive Event where
  | poll (flag : Bool)
  | detailFetch (book_id : String)
  | searchFetch (query : String)
  | emit (book_id : String) (relevance : Nat)
deriving DecidableEq

/-- The environment of one invocation: the abort signal as observed by
successive polls, the outcome of the search request, the outcome of each
detail request (keyed by the id rendered into the request path), and the
host's `check_isbn` validator. -/
structure World where
  abortSignal : Nat → Bool
  searchResp : Option ApiResponse
  detailResp : String → Option ApiResponse
  checkIsbn : String → Option String

/-- Caller-supplied inputs of `identify`. -/
structure IdentifyInput where
  title : Option String
  authors : List String
  ranobedb : Option String
  isbn : Option String

/-- Rendering of `str(book_data.get('id'))` (Python renders `None` as
the string `"None"`). -/
def str_of_id (i : Option Nat) : String :=
  match i with
  | some n => toString n
  | none => "None"

/-- Outcome of `_get_book_details` against the world. -/
def get_book_details (w : World) (bid : String) : Option Book :=
  get_book_details_from (w.detailResp bid)

/-- Outcome of `_search_books` against the world. -/
def search_books (w : World) : List Candidate :=
  search_books_from w.searchResp

/-- Embedding of `_create_search_query`: the title verbatim, then the
first author unless it is empty or the `unknown` placeholder. -/
def create_search_query (title : Option String) (authors : List String) : String :=
  let parts1 : List String :=
    match title with
    | some t => if t = "" then [] else [t]
    | none => []
  let parts2 : List String :=
    match authors with
    | [] => []
    | a :: _ => if a ≠ "" ∧ a.toLower ≠ "unknown" then [a] else []
  String.intercalate " " (parts1 ++ parts2)

/-- The ISBN preprocessing of `identify`: a truthy supplied ISBN is passed
through the host's validator. -/
def effective_isbn (w : World) (inp : IdentifyInput) : Option String :=
  match inp.isbn with
  | some s => if s = "" then none else w.checkIsbn s
  | none => none

/-- The per-candidate loop of `identify`
(`for relevance, book in enumerate(search_results)`): an abort poll each
iteration, the `if not book_id: continue` skip, the detail fetch, and the
emit on success; `k` is the index of the iteration's abort poll. -/
def process_candidates (w : World) : List Candidate → Nat → Nat → List Event
  | [], _, _ => []
  | c :: rest, rel, k =>
    Event.poll (w.abortSignal k) ::
    (if w.abortSignal k then []
     else
       match c.id with
       | none => process_candidates w rest (rel + 1) (k + 1)
       | some cid =>
         if cid = 0 then process_candidates w rest (rel + 1) (k + 1)
         else
           Event.detailFetch (toString cid) ::
           (match get_book_details w (toString cid) with
            | some b =>
              Event.emit (str_of_id b.id) rel :: process_candidates w rest (rel + 1) (k + 1)
            | none => process_candidates w rest (rel + 1) (k + 1)))

/-- The search half of `identify` (query building, the insufficient-input
early return, the search request, and the candidate loop), entered either
directly or after a direct-id miss; `k` is the index of its first abort
poll. -/
def search_phase (w : World) (inp : IdentifyInput) (k : Nat) : List Event :=
  let isbn := effective_isbn w inp
  let query := create_search_query inp.title inp.authors
  if query = "" ∧ opt_truthy isbn = false then []
  else
    let query2 :=
      match isbn with
      | some i => if i = "" then query else (if query = "" then i else query ++ " " ++ i)
      | none => query
    Event.poll (w.abortSignal k) ::
    (if w.abortSignal k then []
     else
       Event.searchFetch query2 ::
       (match search_books w with
        | [] => []
        | cs => process_candidates w cs 0 (k + 1)))

/-- Embedding of `identify`: the direct-id branch (one detail fetch,
single emit with relevance 0 on success) falling through to the search
phase on a miss. -/
def identify (w : World) (inp : IdentifyInput) : List Event :=
  match inp.ranobedb with
  | some rid =>
    if rid = "" then search_phase w inp 0
    else
      Event.poll (w.abortSignal 0) ::
      (if w.abortSignal 0 then []
       else
         Event.detailFetch rid ::
         (match get_book_details w rid with
          | some b => [Event.emit (str_of_id b.id) 0]
          | none => search_phase w inp 1))
  | none => search_phase w inp 0

/-- The results put on the queue during a trace. -/
def emitted_ids (evs : List Event) : List String :=
  evs.filterMap (fun e =>
    match e with
    | Event.emit i _ => some i
    | _ => none)

/-- The ids of candidates that pass the `if not book_id: continue` check,
rendered the way the detail-request path renders them. -/
def truthy_ids (cs : List Candidate) : List String :=
  cs.filterMap (fun c =>
    match c.id with
    | some n => if n = 0 then none else some (toString n)
    | none => none)

theorem emitted_ids_nil : emitted_ids [] = [] := rfl

theorem emitted_ids_poll (b : Bool) (evs : List Event) :
    emitted_ids (Event.poll b :: evs) = emitted_ids evs := rfl

theorem emitted_ids_detail (s : String) (evs : List Event) :
    emitted_ids (Event.detailFetch s :: evs) = emitted_ids evs := rfl

theorem emitted_ids_search (q : String) (evs : List Event) :
    emitted_ids (Event.searchFetch q :: evs) = emitted_ids evs := rfl

theorem emitted_ids_emit (i : String) (r : Nat) (evs : List Event) :
    emitted_ids (Event.emit i r :: evs) = i :: emitted_ids evs := rfl

theorem emitted_process_sublist (w : World)
    (hcons : ∀ s b, get_book_details w s = some b → str_of_id b.id = s) :
    ∀ (cs : List Candidate) (rel k : Nat),
      List.Sublist (emitted_ids (process_candidates w cs rel k)) (truthy_ids cs) := by
  intro cs
  induction cs with
  | nil =>
    intro rel k
    simp [process_candidates, emitted_ids, truthy_ids]
  | cons c rest ih =>
    intro rel k
    cases hA : w.abortSignal k with
    | true =>
      have hp : process_candidates w (c :: rest) rel k = [Event.poll true] := by
        simp [process_candidates, hA]
      rw [hp, emitted_ids_poll, emitted_ids_nil]
      exact List.nil_sublist _
    | false =>
      cases hid : c.id with
      | none =>
        have hp : process_candidates w (c :: rest) rel k =
            Event.poll false :: process_candidates w rest (rel + 1) (k + 1) := by
          simp [process_candidates, hA, hid]
        have ht : truthy_ids (c :: rest) = truthy_ids rest := by
          simp [truthy_ids, List.filterMap_cons, hid]
        rw [hp, emitted_ids_poll, ht]
        exact ih _ _
      | some cid =>
        by_cases hz : cid = 0
        · subst hz
          have hp : process_candidates w (c :: rest) rel k =
              Event.poll false :: process_candidates w rest (rel + 1) (k + 1) := by
            simp [process_candidates, hA, hid]
          have ht : truthy_ids (c :: rest) = truthy_ids rest := by
            simp [truthy_ids, List.filterMap_cons, hid]
          rw [hp, emitted_ids_poll, ht]
          exact ih _ _
        · have ht : truthy_ids (c :: rest) = toString cid :: truthy_ids rest := by
            simp [truthy_ids, List.filterMap_cons, hid, hz]
          cases hd : get_book_details w (toString cid) with
          | none =>
            have hp : process_candidates w (c :: rest) rel k =
                Event.poll false :: Event.detailFetch (toString cid) ::
                  process_candidates w rest (rel + 1) (k + 1) := by
              simp [process_candidates, hA, hid, hz, hd]
            rw [hp, emitted_ids_poll, emitted_ids_detail, ht]
            exact List.Sublist.cons _ (ih _ _)
          | some b =>
            have hp : process_candidates w (c :: rest) rel k =
                Event.poll false :: Event.detailFetch (toString cid) ::
                  Event.emit (str_of_id b.id) rel ::
                  process_candidates w rest (rel + 1) (k + 1) := by
              simp [process_candidates, hA, hid, hz, hd]
            rw [hp, emitted_ids_poll, emitted_ids_detail, emitted_ids_emit, ht,
              hcons (toString cid) b hd]
            exact List.Sublist.cons₂ _ (ih _ _)

theorem emitted_search_phase_sublist (w : World) (inp : IdentifyInput)
    (hcons : ∀ s b, get_book_details w s = some b → str_of_id b.id = s) (k : Nat) :
    List.Sublist (emitted_ids (search_phase w inp k)) (truthy_ids (search_books w)) := by
  simp only [search_phase]
  by_cases hq : (create_search_query inp.title inp.authors = "" ∧
      opt_truthy (effective_isbn w inp) = false)
  · rw [if_pos hq, emitted_ids_nil]
    exact List.nil_sublist _
  · rw [if_neg hq]
    cases hA : w.abortSignal k with
    | true =>
      rw [if_pos rfl, emitted_ids_poll, emitted_ids_nil]
      exact List.nil_sublist _
    | false =>
      rw [if_neg (by simp), emitted_ids_poll, emitted_ids_search]
      cases hsb : search_books w with
      | nil => exact List.nil_sublist _
      | cons c cs' => exact emitted_process_sublist w hcons (c :: cs') 0 (k + 1)

/-- C2 (amended): the direct-id branch and the search branch are mutually
exclusive — a supplied `ranobedb` identifier whose detail fetch succeeds
yields exactly the trace of one poll, one detail fetch and one emit with
relevance 0 (no search request, no candidate fetch), while a detail miss
falls through to the search phase; and no logical book is emitted twice
provided the search response carries pairwise-distinct truthy candidate
ids and every detail fetch returns a record bearing the requested id.
(The unconditional no-double-emission reading of the claim is refuted by
`identify_double_emit_counterexample`.) -/
theorem identify_branches_amended (w : World) (inp : IdentifyInput) :
    (∀ rid, inp.ranobedb = some rid → rid ≠ "" → w.abortSignal 0 = false →
      (∀ b, get_book_details w rid = some b →
        identify w inp =
          [Event.poll false, Event.detailFetch rid, Event.emit (str_of_id b.id) 0]) ∧
      (get_book_details w rid = none →
        identify w inp =
          Event.poll false :: Event.detailFetch rid :: search_phase w inp 1)) ∧
    ((∀ s b, get_book_details w s = some b → str_of_id b.id = s) →
      (truthy_ids (search_books w)).Nodup →
      (emitted_ids (identify w inp)).Nodup) := by
  constructor
  · intro rid hr hne h0
    constructor
    · intro b hb
      simp [identify, hr, hne, h0, hb]
    · intro hb
      simp [identify, hr, hne, h0, hb]
  · intro hcons hnd
    cases hr : inp.ranobedb with
    | none =>
      have hi : identify w inp = search_phase w inp 0 := by
        simp [identify, hr]
      rw [hi]
      exact List.Nodup.sublist (emitted_search_phase_sublist w inp hcons 0) hnd
    | some rid =>
      by_cases hne : rid = ""
      · have hi : identify w inp = search_phase w inp 0 := by
          simp [identify, hr, hne]
        rw [hi]
        exact List.Nodup.sublist (emitted_search_phase_sublist w inp hcons 0) hnd
      · cases hA : w.abortSignal 0 with
        | true =>
          have hi : identify w inp = [Event.poll true] := by
            simp [identify, hr, hne, hA]
          rw [hi, emitted_ids_poll, emitted_ids_nil]
          exact List.nodup_nil
        | false =>
          cases hd : get_book_details w rid with
          | some b =>
            have hi : identify w inp =
                [Event.poll false, Event.detailFetch rid, Event.emit (str_of_id b.id) 0] := by
              simp [identify, hr, hne, hA, hd]
            rw [hi, emitted_ids_poll, emitted_ids_detail, emitted_ids_emit, emitted_ids_nil]
            simp
          | none =>
            have hi : identify w inp =
                Event.poll false :: Event.detailFetch rid :: search_phase w inp 1 := by
              simp [identify, hr, hne, hA, hd]
            rw [hi, emitted_ids_poll, emitted_ids_detail]
            exact List.Nodup.sublist (emitted_search_phase_sublist w inp hcons 1) hnd

/-- A world whose search response lists the same candidate twice. -/
def dup_world : World :=
  { abortSignal := fun _ => false
    searchResp := some { books := some [{ id := some 1 }, { id := some 1 }], book := none }
    detailResp := fun s =>
      if s = "1" then
        some { books := none
               book := some { id := some 1, editions := [], series := none, c_release_date := none } }
      else none
    checkIsbn := fun _ => none }

/-- Inputs supplying a direct id that misses, so the invocation falls
through to the search path. -/
def dup_input : IdentifyInput :=
  { title := some "t", authors := [], ranobedb := some "7", isbn := none }

/-- C2 counterexample: with a direct id that misses and a search response
repeating candidate id 1, the invocation emits the same logical book
twice, refuting the claim's unconditional no-double-emission part. -/
theorem identify_double_emit_counterexample :
    emitted_ids (identify dup_world dup_input) = ["1", "1"] ∧
    ¬ (emitted_ids (identify dup_world dup_input)).Nodup := by
  constructor
  · rfl
  · rw [show emitted_ids (identify dup_world dup_input) = ["1", "1"] from rfl]
    decide

/-- The record returned by the direct detail fetch in `direct_world`. -/
def book5 : Book :=
  { id := some 5, editions := [], series := none, c_release_date := none }

/-- A world where only the direct detail fetch for id 5 succeeds. -/
def direct_world : World :=
  { abortSignal := fun _ => false
    searchResp := none
    detailResp := fun s =>
      if s = "5" then some { books := none, book := some book5 }
      else none
    checkIsbn := fun _ => none }

/-- Inputs supplying the direct id 5. -/
def direct_input : IdentifyInput :=
  { title := none, authors := [], ranobedb := some "5", isbn := none }

/-- Witness for the amended C2: the direct-id branch emits exactly one
record with relevance 0 and nothing is emitted twice. -/
theorem identify_branches_amended_witness :
    identify direct_world direct_input =
      [Event.poll false, Event.detailFetch "5", Event.emit "5" 0] ∧
    (emitted_ids (identify direct_world direct_input)).Nodup := by
  have h := identify_branches_amended direct_world direct_input
  constructor
  · exact (h.1 "5" rfl (by decide) rfl).1 book5 rfl
  · refine h.2 ?_ (by decide)
    intro s b hb
    by_cases hs : s = "5"
    · subst hs
      have hb' : (some book5 : Option Book) = some b := hb
      injection hb' with h5
      rw [← h5]
      rfl
    · exfalso
      simp [get_book_details, direct_world, get_book_details_from, hs] at hb

/-! Cancellation behaviour of `identify`. -/

/-- Whether an event is a network request. -/
def is_fetch : Event → Bool
  | Event.poll _ => false
  | Event.detailFetch _ => true
  | Event.searchFetch _ => true
  | Event.emit _ _ => false

/-- No event of any kind follows a poll that observed the abort signal:
the trace ends at the first true poll. -/
def no_event_after_abort : List Event → Prop
  | [] => True
  | Event.poll b :: rest => if b then rest = [] else no_event_after_abort rest
  | Event.detailFetch _ :: rest => no_event_after_abort rest
  | Event.searchFetch _ :: rest => no_event_after_abort rest
  | Event.emit _ _ :: rest => no_event_after_abort rest

/-- Every network request event is immediately preceded by a poll that
returned false; `prev` is the event preceding the trace (none at the
start of the invocation). -/
def fetches_gated : Option Event → List Event → Prop
  | _, [] => True
  | prev, e :: rest =>
    (is_fetch e = true → prev = some (Event.poll false)) ∧ fetches_gated (some e) rest

theorem no_event_after_abort_process (w : World) :
    ∀ (cs : List Candidate) (rel k : Nat),
      no_event_after_abort (process_candidates w cs rel k) := by
  intro cs
  induction cs with
  | nil =>
    intro rel k
    simp [process_candidates, no_event_after_abort]
  | cons c rest ih =>
    intro rel k
    cases hA : w.abortSignal k with
    | true =>
      have hp : process_candidates w (c :: rest) rel k = [Event.poll true] := by
        simp [process_candidates, hA]
      rw [hp]
      simp [no_event_after_abort]
    | false =>
      cases hid : c.id with
      | none =>
        have hp : process_candidates w (c :: rest) rel k =
            Event.poll false :: process_candidates w rest (rel + 1) (k + 1) := by
          simp [process_candidates, hA, hid]
        rw [hp]
        simpa [no_event_after_abort] using ih _ _
      | some cid =>
        by_cases hz : cid = 0
        · subst hz
          have hp : process_candidates w (c :: rest) rel k =
              Event.poll false :: process_candidates w rest (rel + 1) (k + 1) := by
            simp [process_candidates, hA, hid]
          rw [hp]
          simpa [no_event_after_abort] using ih _ _
        · cases hd : get_book_details w (toString cid) with
          | none =>
            have hp : process_candidates w (c :: rest) rel k =
                Event.poll false :: Event.detailFetch (toString cid) ::
                  process_candidates w rest (rel + 1) (k + 1) := by
              simp [process_candidates, hA, hid, hz, hd]
            rw [hp]
            simpa [no_event_after_abort] using ih _ _
          | some b =>
            have hp : process_candidates w (c :: rest) rel k =
                Event.poll false :: Event.detailFetch (toString cid) ::
                  Event.emit (str_of_id b.id) rel ::
                  process_candidates w rest (rel + 1) (k + 1) := by
              simp [process_candidates, hA, hid, hz, hd]
            rw [hp]
            simpa [no_event_after_abort] using ih _ _

theorem fetches_gated_process (w : World) :
    ∀ (cs : List Candidate) (rel k : Nat) (prev : Option Event),
      fetches_gated prev (process_candidates w cs rel k) := by
  intro cs
  induction cs with
  | nil =>
    intro rel k prev
    simp [process_candidates, fetches_gated]
  | cons c rest ih =>
    intro rel k prev
    cases hA : w.abortSignal k with
    | true =>
      have hp : process_candidates w (c :: rest) rel k = [Event.poll true] := by
        simp [process_candidates, hA]
      rw [hp]
      simp [fetches_gated, is_fetch]
    | false =>
      cases hid : c.id with
      | none =>
        have hp : process_candidates w (c :: rest) rel k =
            Event.poll false :: process_candidates w rest (rel + 1) (k + 1) := by
          simp [process_candidates, hA, hid]
        rw [hp]
        exact ⟨by simp [is_fetch], ih _ _ _⟩
      | some cid =>
        by_cases hz : cid = 0
        · subst hz
          have hp : process_candidates w (c :: rest) rel k =
              Event.poll false :: process_candidates w rest (rel + 1) (k + 1) := by
            simp [process_candidates, hA, hid]
          rw [hp]
          exact ⟨by simp [is_fetch], ih _ _ _⟩
        · cases hd : get_book_details w (toString cid) with
          | none =>
            have hp : process_candidates w (c :: rest) rel k =
                Event.poll false :: Event.detailFetch (toString cid) ::
                  process_candidates w rest (rel + 1) (k + 1) := by
              simp [process_candidates, hA, hid, hz, hd]
            rw [hp]
            exact ⟨by simp [is_fetch], fun _ => rfl, ih _ _ _⟩
          | some b =>
            have hp : process_candidates w (c :: rest) rel k =
                Event.poll false :: Event.detailFetch (toString cid) ::
                  Event.emit (str_of_id b.id) rel ::
                  process_candidates w rest (rel + 1) (k + 1) := by
              simp [process_candidates, hA, hid, hz, hd]
            rw [hp]
            exact ⟨by simp [is_fetch], fun _ => rfl, by simp [is_fetch], ih _ _ _⟩

theorem no_event_after_abort_search_phase (w : World) (inp : IdentifyInput) (k : Nat) :
    no_event_after_abort (search_phase w inp k) := by
  simp only [search_phase]
  by_cases hq : (create_search_query inp.title inp.authors = "" ∧
      opt_truthy (effective_isbn w inp) = false)
  · rw [if_pos hq]
    simp [no_event_after_abort]
  · rw [if_neg hq]
    cases hA : w.abortSignal k with
    | true =>
      rw [if_pos rfl]
      simp [no_event_after_abort]
    | false =>
      rw [if_neg (by simp)]
      cases hsb : search_books w with
      | nil => simp [no_event_after_abort]
      | cons c cs' =>
        simp only [no_event_after_abort, if_neg (by simp : ¬ false = true)]
        exact no_event_after_abort_process w (c :: cs') 0 (k + 1)

theorem fetches_gated_search_phase (w : World) (inp : IdentifyInput) (k : Nat)
    (prev : Option Event) :
    fetches_gated prev (search_phase w inp k) := by
  simp only [search_phase]
  by_cases hq : (create_search_query inp.title inp.authors = "" ∧
      opt_truthy (effective_isbn w inp) = false)
  · rw [if_pos hq]
    simp [fetches_gated]
  · rw [if_neg hq]
    cases hA : w.abortSignal k with
    | true =>
      rw [if_pos rfl]
      simp [fetches_gated, is_fetch]
    | false =>
      rw [if_neg (by simp)]
      cases hsb : search_books w with
      | nil => exact ⟨by simp [is_fetch], fun _ => rfl, trivial⟩
      | cons c cs' =>
        exact ⟨by simp [is_fetch], fun _ => rfl, fetches_gated_process w (c :: cs') 0 (k + 1) _⟩

/-- C6: once a poll observes the cancellation signal the trace ends —
no further detail fetch, search request or emission occurs (the signal
is polled before the direct-id fetch, before the search request and
before each candidate iteration, which is the `fetches_gated` part) —
and the orchestrator returns normally (the embedding is a total
function), leaving previously emitted results in place in the trace. -/
theorem identify_abort_spec (w : World) (inp : IdentifyInput) :
    no_event_after_abort (identify w inp) ∧ fetches_gated none (identify w inp) := by
  cases hr : inp.ranobedb with
  | none =>
    have hi : identify w inp = search_phase w inp 0 := by
      simp [identify, hr]
    rw [hi]
    exact ⟨no_event_after_abort_search_phase w inp 0, fetches_gated_search_phase w inp 0 none⟩
  | some rid =>
    by_cases hne : rid = ""
    · have hi : identify w inp = search_phase w inp 0 := by
        simp [identify, hr, hne]
      rw [hi]
      exact ⟨no_event_after_abort_search_phase w inp 0, fetches_gated_search_phase w inp 0 none⟩
    · cases hA : w.abortSignal 0 with
      | true =>
        have hi : identify w inp = [Event.poll true] := by
          simp [identify, hr, hne, hA]
        rw [hi]
        exact ⟨by simp [no_event_after_abort], by simp [fetches_gated, is_fetch]⟩
      | false =>
        cases hd : get_book_details w rid with
        | some b =>
          have hi : identify w inp =
              [Event.poll false, Event.detailFetch rid, Event.emit (str_of_id b.id) 0] := by
            simp [identify, hr, hne, hA, hd]
          rw [hi]
          refine ⟨by simp [no_event_after_abort], ?_⟩
          exact ⟨by simp [is_fetch], fun _ => rfl, by simp [is_fetch], trivial⟩
        | none =>
          have hi : identify w inp =
              Event.poll false :: Event.detailFetch rid :: search_phase w inp 1 := by
            simp [identify, hr, hne, hA, hd]
          rw [hi]
          constructor
          · simpa [no_event_after_abort] using no_event_after_abort_search_phase w inp 1
          · exact ⟨by simp [is_fetch], fun _ => rfl, fetches_gated_search_phase w inp 1 _⟩

end RanobeDB
